import Mathlib

/-!
Shallow embedding of gdbsupport/interval_tree.h: an augmented red-black
interval tree (CLRS sections 13 and 14.3) with a nil sentinel node.

Modelling conventions:
* node pointers become `Nat` indices into an arena `List (Option Node)`;
  index 0 is the `m_nil` sentinel (a real, mutable node, as in the source);
* an erased (freed) slot becomes `none`; reading a freed or out-of-range
  slot yields a default node (such reads are undefined behaviour in the
  source and never happen on valid traces);
* endpoints are `Int` (the source is generic over a totally ordered
  endpoint type; the tests instantiate it with `int`, and the container
  performs no endpoint arithmetic, only comparisons);
* every `while`/`for` loop takes explicit fuel; public entry points pass
  `t.nodes.length + 1`, which dominates the length of any simple path in
  the arena, so fuel never runs out on well-formed states.
-/

namespace IntervalTree

/-- Node colour (`interval_tree_node::color`). -/
inductive Color where
  | black
  | red
deriving DecidableEq, Repr

/-- Child direction (`interval_tree_node::direction`). -/
inductive Direction where
  | left
  | right
deriving DecidableEq, Repr

/-- Tree node (`interval_tree_node`): colour, optional payload interval
(`m_int`, absent on the nil sentinel), child and parent links (`m_left`,
`m_right`, `m_p`) as arena indices, and the subtree-maximum augmentation
(`m_max`). -/
structure Node where
  color : Color
  intv : Option (Int × Int)
  left : Nat
  right : Nat
  parent : Nat
  max : Int
deriving DecidableEq, Repr

/-- Default node, standing in for reads of uninitialized or freed storage. -/
def defaultNode : Node :=
  { color := Color.black, intv := none, left := 0, right := 0, parent := 0,
    max := 0 }

/-- Tree state (`interval_tree`): the node arena and the root index
(`m_root`).  Slot 0 is the `m_nil` sentinel. -/
structure Tree where
  nodes : List (Option Node)
  root : Nat
deriving DecidableEq, Repr

/-- Arena index of the `m_nil` sentinel node. -/
def nilIdx : Nat := 0

/-- Freshly constructed tree (`interval_tree ()`): only the sentinel, black,
and `m_root = &m_nil`. -/
def emptyTree : Tree :=
  { nodes := [some defaultNode], root := nilIdx }

/-- Read node `i` from the arena. -/
def getN (t : Tree) (i : Nat) : Node :=
  ((t.nodes.getD i none).getD defaultNode)

/-- Write node `i` in the arena. -/
def setN (t : Tree) (i : Nat) (n : Node) : Tree :=
  { t with nodes := t.nodes.set i (some n) }

/-- Slot `i` holds a live node. -/
def IsLive (t : Tree) (i : Nat) : Prop :=
  (t.nodes.getD i none).isSome = true

instance (t : Tree) (i : Nat) : Decidable (IsLive t i) := by
  unfold IsLive; infer_instance

/-- Child link of a node record in a given direction
(`interval_tree_node::child`). -/
def Node.child (n : Node) : Direction → Nat
  | Direction.left => n.left
  | Direction.right => n.right

/-- Functional update of a child link. -/
def Node.setChild (n : Node) (d : Direction) (c : Nat) : Node :=
  match d with
  | Direction.left => { n with left := c }
  | Direction.right => { n with right := c }

/-- Opposite direction (`interval_tree::opposite`). -/
def opposite : Direction → Direction
  | Direction.left => Direction.right
  | Direction.right => Direction.left

/-- Read the `d`-child of node `x`. -/
def child (t : Tree) (x : Nat) (d : Direction) : Nat :=
  (getN t x).child d

/-- Write the `d`-child of node `x`. -/
def setChild (t : Tree) (x : Nat) (d : Direction) (v : Nat) : Tree :=
  setN t x ((getN t x).setChild d v)

/-- Read the parent link of node `x` (`m_p`). -/
def parent (t : Tree) (x : Nat) : Nat :=
  (getN t x).parent

/-- Write the parent link of node `x`. -/
def setParent (t : Tree) (x : Nat) (p : Nat) : Tree :=
  setN t x { getN t x with parent := p }

/-- Read the colour of node `x`. -/
def colorOf (t : Tree) (x : Nat) : Color :=
  (getN t x).color

/-- Write the colour of node `x`. -/
def setColor (t : Tree) (x : Nat) (c : Color) : Tree :=
  setN t x { getN t x with color := c }

/-- Read the subtree-maximum augmentation of node `x` (`m_max`). -/
def maxOf (t : Tree) (x : Nat) : Int :=
  (getN t x).max

/-- Write the subtree-maximum augmentation of node `x`. -/
def setMax (t : Tree) (x : Nat) (m : Int) : Tree :=
  setN t x { getN t x with max := m }

/-- Low endpoint of the interval stored at node `x`
(`interval_tree_node::low`). -/
def low (t : Tree) (x : Nat) : Int :=
  ((getN t x).intv.getD (0, 0)).1

/-- High endpoint of the interval stored at node `x`
(`interval_tree_node::high`). -/
def high (t : Tree) (x : Nat) : Int :=
  ((getN t x).intv.getD (0, 0)).2

/-- Ordering key of node `x`: the pair `(low, high)`
(`interval_tree_node::key`). -/
def key (t : Tree) (x : Nat) : Int × Int :=
  (low t x, high t x)

/-- Strict lexicographic key comparison
(`interval_tree_key::operator<`). -/
def keyLt (a b : Int × Int) : Bool :=
  if a.1 ≠ b.1 then decide (a.1 < b.1) else decide (a.2 < b.2)

/-- Non-strict lexicographic key comparison
(`interval_tree_key::operator<=`). -/
def keyLe (a b : Int × Int) : Bool :=
  if a.1 ≠ b.1 then decide (a.1 < b.1) else decide (a.2 ≤ b.2)

/-- Sibling access through the parent pointer
(`interval_tree_node::sibling`): `m_p->child (which)`. -/
def sibling (t : Tree) (x : Nat) (d : Direction) : Nat :=
  child t (parent t x) d

/-- Whether node `x` is the `d`-child of its parent
(`interval_tree_node::is_child`). -/
def is_child (t : Tree) (x : Nat) (d : Direction) : Bool :=
  x == sibling t x d

/-- Which child of its parent node `x` is
(`interval_tree_node::which_child`). -/
def which_child (t : Tree) (x : Nat) : Direction :=
  if is_child t x Direction.left then Direction.left else Direction.right

/-- Recompute `m_max` of node `x` from its own high endpoint and its
children's `m_max` (`interval_tree::update_max_1`). -/
def update_max_1 (t : Tree) (x : Nat) : Tree :=
  let t := setMax t x (high t x)
  let t :=
    if (getN t x).left ≠ nilIdx ∧ (getN t (getN t x).left).max > (getN t x).max
    then setMax t x (getN t (getN t x).left).max
    else t
  if (getN t x).right ≠ nilIdx ∧ (getN t (getN t x).right).max > (getN t x).max
  then setMax t x (getN t (getN t x).right).max
  else t

/-- Fueled loop body of `interval_tree::update_max`: recompute `m_max` of
`x` and of all its ancestors, walking the parent chain up to the
sentinel. -/
def update_max_go (t : Tree) (x : Nat) : Nat → Tree
  | 0 => t
  | fuel + 1 =>
    if x = nilIdx then t
    else
      let t := update_max_1 t x
      update_max_go t (parent t x) fuel

/-- Recompute `m_max` of node `x` and its ancestors
(`interval_tree::update_max`). -/
def update_max (t : Tree) (x : Nat) : Tree :=
  update_max_go t x (t.nodes.length + 1)

/-- Link `v` in place of `u` (`interval_tree::rb_transplant`). -/
def rb_transplant (t : Tree) (u v : Nat) : Tree :=
  let t :=
    if parent t u = nilIdx then { t with root := v }
    else setChild t (parent t u) (which_child t u) v
  setParent t v (parent t u)

/-- Left or right rotation of `x` (`interval_tree::rotate`), including the
two `m_max` recomputations on the lower pivot `x` and then the upper pivot
`y`. -/
def rotate (t : Tree) (x : Nat) (wh : Direction) : Tree :=
  let y := child t x (opposite wh)
  let t := setChild t x (opposite wh) (child t y wh)
  let t := if child t y wh ≠ nilIdx then setParent t (child t y wh) x else t
  let t := rb_transplant t x y
  let t := setChild t y wh x
  let t := setParent t x y
  let t := update_max_1 t x
  update_max_1 t y

/-- Case 1 of `interval_tree::rb_insert_fixup`: the uncle `y` is red;
recolour and ascend two levels. -/
def rb_insert_fixup_case1 (t : Tree) (z y : Nat) : Tree × Nat :=
  let t := setColor t (parent t z) Color.black
  let t := setColor t y Color.black
  let t := setColor t (parent t (parent t z)) Color.red
  (t, parent t (parent t z))

/-- Cases 2 and 3 of `interval_tree::rb_insert_fixup`: the uncle is black;
when `z` sits on the opposite side, first rotate it into case 3, then
recolour and rotate the grandparent. -/
def rb_insert_fixup_case23 (t : Tree) (z : Nat) (which : Direction) :
    Tree × Nat :=
  let tz : Tree × Nat :=
    if is_child t z (opposite which) then
      let z := parent t z
      (rotate t z which, z)
    else (t, z)
  let t := tz.1
  let z := tz.2
  let t := setColor t (parent t z) Color.black
  let t := setColor t (parent t (parent t z)) Color.red
  let t := rotate t (parent t (parent t z)) (opposite which)
  (t, z)

/-- Fueled loop of `interval_tree::rb_insert_fixup`: restore the red-black
invariants after inserting node `z`, via the three-case schema on the
uncle's colour. -/
def rb_insert_fixup_go (t : Tree) (z : Nat) : Nat → Tree
  | 0 => t
  | fuel + 1 =>
    if colorOf t (parent t z) = Color.red then
      let which := which_child t (parent t z)
      let y := sibling t (parent t z) (opposite which)
      let s : Tree × Nat :=
        if colorOf t y = Color.red then rb_insert_fixup_case1 t z y
        else rb_insert_fixup_case23 t z which
      rb_insert_fixup_go s.1 s.2 fuel
    else t

/-- Restore the red-black invariants after inserting node `z`, then blacken
the root (`interval_tree::rb_insert_fixup`). -/
def rb_insert_fixup (t : Tree) (z : Nat) : Tree :=
  let t := rb_insert_fixup_go t z (t.nodes.length + 1)
  setColor t t.root Color.black

/-- Fueled descent loop of `interval_tree::rb_insert`: find the insertion
point for node `z` according to its key, raising `m_max` along the way.
Returns the updated state, the last visited node `y` and the direction
taken out of it. -/
def rb_insert_descent (t : Tree) (z y x : Nat) (which : Direction) :
    Nat → Tree × Nat × Direction
  | 0 => (t, y, which)
  | fuel + 1 =>
    if x ≠ nilIdx then
      let y := x
      let which :=
        if keyLt (key t z) (key t x) then Direction.left else Direction.right
      let x := child t x which
      let t := if maxOf t y < high t z then setMax t y (high t z) else t
      rb_insert_descent t z y x which fuel
    else (t, y, which)

/-- Linking phase of `interval_tree::rb_insert`: everything before the call
to `rb_insert_fixup` (descent, linking `z` under `y`, recomputing the
parent's `m_max`, clearing `z`'s children and colouring `z` red). -/
def rb_insert_link (t : Tree) (z : Nat) : Tree :=
  let r := rb_insert_descent t z nilIdx t.root Direction.left
    (t.nodes.length + 1)
  let t := r.1
  let y := r.2.1
  let which := r.2.2
  let t := setParent t z y
  let t :=
    if y = nilIdx then { t with root := z }
    else update_max_1 (setChild t y which z) y
  let t := setChild t z Direction.left nilIdx
  let t := setChild t z Direction.right nilIdx
  setColor t z Color.red

/-- Insert node `z` into the tree (`interval_tree::rb_insert`). -/
def rb_insert (t : Tree) (z : Nat) : Tree :=
  rb_insert_fixup (rb_insert_link t z) z

/-- Fueled loop of `interval_tree::tree_minimum`: leftmost node of the
subtree rooted at `x`. -/
def tree_minimum_go (t : Tree) (x : Nat) : Nat → Nat
  | 0 => x
  | fuel + 1 =>
    if (getN t x).left ≠ nilIdx then tree_minimum_go t (getN t x).left fuel
    else x

/-- Leftmost node of the subtree rooted at `x`
(`interval_tree::tree_minimum`). -/
def tree_minimum (t : Tree) (x : Nat) : Nat :=
  tree_minimum_go t x (t.nodes.length + 1)

/-- Case 1 of `interval_tree::rb_delete_fixup`: the sibling `w` is red;
recolour, rotate the parent and re-read the sibling. -/
def rb_delete_fixup_case1 (t : Tree) (x : Nat) (which : Direction)
    (w : Nat) : Tree × Nat :=
  let t := setColor t w Color.black
  let t := setColor t (parent t x) Color.red
  let t := rotate t (parent t x) which
  (t, sibling t x (opposite which))

/-- Case 3 of `interval_tree::rb_delete_fixup`: the sibling is black with a
black outer child; recolour, rotate the sibling and re-read it. -/
def rb_delete_fixup_case3 (t : Tree) (x : Nat) (which : Direction)
    (w : Nat) : Tree × Nat :=
  let t := setColor t (child t w which) Color.black
  let t := setColor t w Color.red
  let t := rotate t w (opposite which)
  (t, sibling t x (opposite which))

/-- Case 4 of `interval_tree::rb_delete_fixup`: the sibling is black with a
red outer child; recolour and rotate the parent. -/
def rb_delete_fixup_case4 (t : Tree) (x : Nat) (which : Direction)
    (w : Nat) : Tree :=
  let t := setColor t w (colorOf t (parent t x))
  let t := setColor t (parent t x) Color.black
  let t := setColor t (child t w (opposite which)) Color.black
  rotate t (parent t x) which

/-- One iteration of the `interval_tree::rb_delete_fixup` loop body:
returns the updated state and the node at which the next iteration
resumes. -/
def rb_delete_fixup_step (t : Tree) (x : Nat) : Tree × Nat :=
  let which := which_child t x
  let w := sibling t x (opposite which)
  let tw : Tree × Nat :=
    if colorOf t w = Color.red then rb_delete_fixup_case1 t x which w
    else (t, w)
  let t := tw.1
  let w := tw.2
  if colorOf t (getN t w).left = Color.black
      ∧ colorOf t (getN t w).right = Color.black then
    let t := setColor t w Color.red
    (t, parent t x)
  else
    let tw2 : Tree × Nat :=
      if colorOf t (child t w (opposite which)) = Color.black then
        rb_delete_fixup_case3 t x which w
      else (t, w)
    let t := tw2.1
    let w := tw2.2
    let t := rb_delete_fixup_case4 t x which w
    (t, t.root)

/-- Fueled loop of `interval_tree::rb_delete_fixup`: restore the red-black
invariants after deletion, via the four-case schema on the sibling's
colour and its children's colours. -/
def rb_delete_fixup_go (t : Tree) (x : Nat) : Nat → Tree × Nat
  | 0 => (t, x)
  | fuel + 1 =>
    if x ≠ t.root ∧ colorOf t x = Color.black then
      let s := rb_delete_fixup_step t x
      rb_delete_fixup_go s.1 s.2 fuel
    else (t, x)

/-- Restore the red-black invariants after deletion, then blacken the node
where the loop stopped (`interval_tree::rb_delete_fixup`). -/
def rb_delete_fixup (t : Tree) (x : Nat) : Tree :=
  let r := rb_delete_fixup_go t x (t.nodes.length + 1)
  setColor r.1 r.2 Color.black

/-- Splice step of the two-children case of `interval_tree::rb_delete`:
`y` is the successor (leftmost node of `z`'s right subtree) and `x` its
right child.  When `y` is not `z`'s direct right child, link `x` in `y`'s
place and give `y` ownership of `z`'s right subtree.  Returns the updated
state and the node from which the `m_max` walk-up must start (`m` in the
source). -/
def rb_delete_splice (t : Tree) (z y x : Nat) : Tree × Nat :=
  if parent t y = z then (setParent t x y, y)
  else
    let m := parent t y
    let t := rb_transplant t y x
    let t := setChild t y Direction.right (getN t z).right
    let t := setParent t (getN t y).right y
    (t, m)

/-- Remove node `z` from the tree (`interval_tree::rb_delete`). -/
def rb_delete (t : Tree) (z : Nat) : Tree :=
  if (getN t z).left = nilIdx then
    let y_original_color := colorOf t z
    let x := (getN t z).right
    let t := rb_transplant t z (getN t z).right
    let t := setChild t z Direction.right nilIdx
    let t := update_max t (parent t z)
    if y_original_color = Color.black then rb_delete_fixup t x else t
  else if (getN t z).right = nilIdx then
    let y_original_color := colorOf t z
    let x := (getN t z).left
    let t := rb_transplant t z (getN t z).left
    let t := setChild t z Direction.left nilIdx
    let t := update_max t (parent t z)
    if y_original_color = Color.black then rb_delete_fixup t x else t
  else
    let y := tree_minimum t (getN t z).right
    let y_original_color := colorOf t y
    let x := (getN t y).right
    let tm : Tree × Nat := rb_delete_splice t z y x
    let t := tm.1
    let m := tm.2
    let t := rb_transplant t z y
    let t := setChild t y Direction.left (getN t z).left
    let t := setParent t (getN t y).left y
    let t := setColor t y (colorOf t z)
    let t := setChild t z Direction.left nilIdx
    let t := setChild t z Direction.right nilIdx
    let t := update_max t m
    if y_original_color = Color.black then rb_delete_fixup t x else t

/-- Fueled loop of `interval_tree::interval_search`: leftmost interval
overlapping `[lo, hi]` in the subtree rooted at `x`, or the sentinel. -/
def interval_search_go (t : Tree) (x : Nat) (lo hi : Int) : Nat → Nat
  | 0 => nilIdx
  | fuel + 1 =>
    if (getN t x).left ≠ nilIdx ∧ lo ≤ (getN t (getN t x).left).max then
      interval_search_go t (getN t x).left lo hi fuel
    else if hi < low t x then nilIdx
    else if lo ≤ high t x then x
    else if (getN t x).right ≠ nilIdx ∧ lo ≤ (getN t (getN t x).right).max then
      interval_search_go t (getN t x).right lo hi fuel
    else nilIdx

/-- Leftmost interval overlapping `[lo, hi]` in the subtree rooted at `x`
(`interval_tree::interval_search`). -/
def interval_search (t : Tree) (x : Nat) (lo hi : Int) : Nat :=
  interval_search_go t x lo hi (t.nodes.length + 1)

/-- Fueled climb loop inside `interval_tree::interval_search_next`: go up
until arriving at a node from its left child (that node has not been
examined yet), returning the sentinel when the parent chain runs out. -/
def search_climb (t : Tree) (x : Nat) : Nat → Nat
  | 0 => nilIdx
  | fuel + 1 =>
    let from_right := is_child t x Direction.right
    let x := parent t x
    if x = nilIdx then nilIdx
    else if from_right then search_climb t x fuel
    else x

/-- Fueled outer loop of `interval_tree::interval_search_next`. -/
def interval_search_next_go (t : Tree) (x : Nat) (lo hi : Int) :
    Nat → Nat
  | 0 => nilIdx
  | fuel + 1 =>
    if (getN t x).right ≠ nilIdx ∧ lo ≤ (getN t (getN t x).right).max then
      interval_search t (getN t x).right lo hi
    else
      let x := search_climb t x (t.nodes.length + 1)
      if x = nilIdx then nilIdx
      else if hi < low t x then nilIdx
      else if lo ≤ high t x then x
      else interval_search_next_go t x lo hi fuel

/-- Leftmost interval to the right of node `x` that overlaps `[lo, hi]`
(`interval_tree::interval_search_next`). -/
def interval_search_next (t : Tree) (x : Nat) (lo hi : Int) : Nat :=
  interval_search_next_go t x lo hi (t.nodes.length + 1)

/-- Construct a node and insert it (`interval_tree::emplace`).  Returns the
new state and the handle (arena index) of the inserted node.  The node
constructor initializes `m_int` and `m_max = high ()`; colour and links are
set by `rb_insert`. -/
def emplace (t : Tree) (lo hi : Int) : Tree × Nat :=
  let z := t.nodes.length
  let t : Tree :=
    { t with
      nodes := t.nodes ++ [some
        { color := Color.black, intv := some (lo, hi), left := 0, right := 0,
          parent := 0, max := hi }] }
  (rb_insert t z, z)

/-- Remove the node a handle refers to and free it
(`interval_tree::erase`). -/
def erase (t : Tree) (h : Nat) : Tree :=
  let t := rb_delete t h
  { t with nodes := t.nodes.set h none }

/-- Start node of the overlap query (`interval_tree_find_iterator`
constructor): on a non-empty tree, the leftmost overlap from the root. -/
def findFirst (t : Tree) (lo hi : Int) : Nat :=
  if t.root ≠ nilIdx then interval_search t t.root lo hi else t.root

/-- Advance the overlap query (`interval_tree_find_iterator::operator++`). -/
def findNext (t : Tree) (x : Nat) (lo hi : Int) : Nat :=
  interval_search_next t x lo hi

/-- Fueled enumeration of the overlap query: node indices yielded by
`find (lo, hi)` up to the end sentinel. -/
def findList_go (t : Tree) (x : Nat) (lo hi : Int) : Nat → List Nat
  | 0 => []
  | fuel + 1 =>
    if x = nilIdx then []
    else x :: findList_go t (findNext t x lo hi) lo hi fuel

/-- Node indices yielded by `find (lo, hi)`, in emission order. -/
def findList (t : Tree) (lo hi : Int) : List Nat :=
  findList_go t (findFirst t lo hi) lo hi (t.nodes.length + 1)

/-- Intervals yielded by `find (lo, hi)`, in emission order. -/
def findIntervals (t : Tree) (lo hi : Int) : List (Int × Int) :=
  (findList t lo hi).map (fun i => (low t i, high t i))

/-- Start node of full-order iteration (`interval_tree::begin`): the
leftmost node, or the sentinel on an empty tree. -/
def beginNode (t : Tree) : Nat :=
  if t.root = nilIdx then nilIdx else tree_minimum t t.root

/-- Fueled recursion of `interval_tree::rb_check`, the invariant checker:
each `gdb_assert` becomes a conjunct of the returned boolean; the
by-reference black-height accumulator becomes a threaded `Int` (initially
`-1`).  Checks, per node: root is black with absent parent; red nodes have
black children; `low ≤ high`; equal black count on every root-to-leaf
path; child parent-links point back; BST ordering of keys; `m_max` equals
the recomputed subtree maximum. -/
def rb_check_go (t : Tree) (x : Nat) (cur : Int) (bh : Int) :
    Nat → Bool × Int
  | 0 => (false, bh)
  | fuel + 1 =>
    let ok1 : Bool :=
      if x = t.root then
        decide (parent t x = nilIdx ∧ colorOf t x = Color.black)
      else true
    let ok2 : Bool :=
      if colorOf t x = Color.red then
        decide (colorOf t (getN t x).left = Color.black ∧
          colorOf t (getN t x).right = Color.black)
      else true
    let ok3 : Bool := decide (low t x ≤ high t x)
    let r4 : Bool × Int :=
      if (getN t x).left = nilIdx ∨ (getN t x).right = nilIdx then
        if bh < 0 then (true, cur) else (decide (bh = cur), bh)
      else (true, bh)
    let ok4 := r4.1
    let bh := r4.2
    let mx := high t x
    let r5 : Bool × Int × Int :=
      if (getN t x).left ≠ nilIdx then
        let l := (getN t x).left
        let okp : Bool := decide (parent t l = x)
        let okk : Bool := keyLe (key t l) (key t x)
        let mx := if mx < (getN t l).max then (getN t l).max else mx
        let rec5 := rb_check_go t l
          (cur + (if colorOf t l = Color.black then 1 else 0)) bh fuel
        ((okp && okk && rec5.1 : Bool), mx, rec5.2)
      else (true, mx, bh)
    let ok5 := r5.1
    let mx := r5.2.1
    let bh := r5.2.2
    let r6 : Bool × Int × Int :=
      if (getN t x).right ≠ nilIdx then
        let r := (getN t x).right
        let okp : Bool := decide (parent t r = x)
        let okk : Bool := keyLe (key t x) (key t r)
        let mx := if mx < (getN t r).max then (getN t r).max else mx
        let rec6 := rb_check_go t r
          (cur + (if colorOf t r = Color.black then 1 else 0)) bh fuel
        ((okp && okk && rec6.1 : Bool), mx, rec6.2)
      else (true, mx, bh)
    let ok6 := r6.1
    let mx := r6.2.1
    let bh := r6.2.2
    let ok7 : Bool := decide ((getN t x).max = mx)
    ((ok1 && ok2 && ok3 && ok4 && ok5 && ok6 && ok7 : Bool), bh)

/-- Invariant checker for the whole tree, as run by `operator<<` on
`interval_tree`: trivially true on an empty tree, otherwise `rb_check`
from the root with black-height accumulator `-1`. -/
def rb_check (t : Tree) : Bool :=
  if t.root = nilIdx then true
  else (rb_check_go t t.root 0 (-1) (t.nodes.length + 1)).1

/-- Public mutating operation of the container: `emplace (lo, hi)` or
`erase` of a handle. -/
inductive Op where
  | emplaceOp (lo hi : Int)
  | eraseOp (h : Nat)
deriving DecidableEq, Repr

/-- Apply one public operation to the tree state. -/
def applyOp (t : Tree) : Op → Tree
  | Op.emplaceOp lo hi => (emplace t lo hi).1
  | Op.eraseOp h => erase t h

/-- Apply a sequence of public operations, in order. -/
def applyOps (t : Tree) (ops : List Op) : Tree :=
  ops.foldl applyOp t

/-- Precondition of an operation, per the documented contract: `emplace`
requires `low ≤ high`; `erase` requires a live handle returned by a prior
`emplace` (hence not the sentinel). -/
def ValidOp (t : Tree) : Op → Prop
  | Op.emplaceOp lo hi => lo ≤ hi
  | Op.eraseOp h => h ≠ nilIdx ∧ IsLive t h

/-- Tree states reachable from a freshly created tree by valid `emplace`
and `erase` operations. -/
inductive Reachable : Tree → Prop where
  | init : Reachable emptyTree
  | step (t : Tree) (op : Op) : Reachable t → ValidOp t op →
      Reachable (applyOp t op)

/-! ## Frame lemmas: structural operations never touch stored intervals -/

/-- Live indices are inside the arena. -/
theorem isLive_lt_length {t : Tree} {i : Nat} (h : IsLive t i) :
    i < t.nodes.length := by
  by_contra hn
  unfold IsLive at h
  rw [List.getD_eq_getElem?_getD, List.getElem?_eq_none (by omega)] at h
  simp at h

/-- Writing a slot in range makes `getN` return the written node. -/
theorem getN_setN_self {t : Tree} {j : Nat} (n : Node)
    (h : j < t.nodes.length) : getN (setN t j n) j = n := by
  unfold getN setN
  simp [List.getD_eq_getElem?_getD, List.getElem?_set_self, h]

/-- Writing one slot leaves every other slot unchanged. -/
theorem getN_setN_ne {t : Tree} {i j : Nat} (n : Node) (h : i ≠ j) :
    getN (setN t j n) i = getN t i := by
  unfold getN setN
  simp [List.getD_eq_getElem?_getD, List.getElem?_set_ne (Ne.symm h)]

/-- Writing an out-of-range slot is a no-op. -/
theorem setN_out {t : Tree} {j : Nat} (n : Node)
    (h : t.nodes.length ≤ j) : setN t j n = t := by
  unfold setN
  rw [List.set_eq_of_length_le h]

/-- Writing a slot preserves liveness of every slot. -/
theorem isLive_setN {t : Tree} {i : Nat} (j : Nat) (n : Node)
    (h : IsLive t i) : IsLive (setN t j n) i := by
  by_cases hij : i = j
  · subst hij
    by_cases hlt : i < t.nodes.length
    · unfold IsLive setN
      simp [List.getD_eq_getElem?_getD, List.getElem?_set_self, hlt]
    · rw [setN_out n (by omega)]; exact h
  · unfold IsLive setN
    unfold IsLive at h
    simpa [List.getD_eq_getElem?_getD,
      List.getElem?_set_ne (Ne.symm hij)] using h

/-- Frame relation for the structural phase of the operations: the second
state stores the same interval as the first at every arena index, and
keeps every live index live.  Rotations, recolourings, transplants and
`m_max` updates only relink and re-annotate nodes, so they preserve it. -/
def SameIntv (t u : Tree) : Prop :=
  u.nodes.length = t.nodes.length ∧
  ∀ i, (getN u i).intv = (getN t i).intv ∧ (IsLive t i → IsLive u i)

theorem sameIntv_refl (t : Tree) : SameIntv t t := ⟨rfl, fun _ => ⟨rfl, id⟩⟩

theorem sameIntv_trans {t u v : Tree} (h1 : SameIntv t u)
    (h2 : SameIntv u v) : SameIntv t v :=
  ⟨h2.1.trans h1.1, fun i =>
    ⟨(h2.2 i).1.trans (h1.2 i).1, fun hl => (h2.2 i).2 ((h1.2 i).2 hl)⟩⟩

theorem sameIntv_setN {t : Tree} {j : Nat} {n : Node}
    (hn : n.intv = (getN t j).intv) : SameIntv t (setN t j n) := by
  refine ⟨List.length_set t.nodes j (some n), ?_⟩
  intro i
  refine ⟨?_, isLive_setN j n⟩
  by_cases hij : i = j
  · subst hij
    by_cases hlt : i < t.nodes.length
    · rw [getN_setN_self n hlt, hn]
    · rw [setN_out n (by omega)]
  · rw [getN_setN_ne n hij]

theorem intv_node_setChild (n : Node) (d : Direction) (c : Nat) :
    (n.setChild d c).intv = n.intv := by cases d <;> rfl

theorem sameIntv_setChild (t : Tree) (x : Nat) (d : Direction) (v : Nat) :
    SameIntv t (setChild t x d v) :=
  sameIntv_setN (intv_node_setChild _ d v)

theorem sameIntv_setParent (t : Tree) (x p : Nat) :
    SameIntv t (setParent t x p) := sameIntv_setN rfl

theorem sameIntv_setColor (t : Tree) (x : Nat) (c : Color) :
    SameIntv t (setColor t x c) := sameIntv_setN rfl

theorem sameIntv_setMax (t : Tree) (x : Nat) (m : Int) :
    SameIntv t (setMax t x m) := sameIntv_setN rfl

theorem sameIntv_withRoot (t : Tree) (v : Nat) :
    SameIntv t { t with root := v } := ⟨rfl, fun _ => ⟨rfl, id⟩⟩

theorem sameIntv_ite {t : Tree} {c : Prop} [Decidable c] {u v : Tree}
    (hu : SameIntv t u) (hv : SameIntv t v) :
    SameIntv t (if c then u else v) := by
  by_cases h : c
  · simpa [h] using hu
  · simpa [h] using hv

theorem sameIntv_update_max_1 (t : Tree) (x : Nat) :
    SameIntv t (update_max_1 t x) := by
  simp only [update_max_1]
  exact sameIntv_trans (sameIntv_setMax _ _ _)
    (sameIntv_trans (sameIntv_ite (sameIntv_setMax _ _ _) (sameIntv_refl _))
      (sameIntv_ite (sameIntv_setMax _ _ _) (sameIntv_refl _)))

theorem sameIntv_update_max_go (t : Tree) (x fuel : Nat) :
    SameIntv t (update_max_go t x fuel) := by
  induction fuel generalizing t x with
  | zero => exact sameIntv_refl t
  | succ n ih =>
    simp only [update_max_go]
    by_cases h : x = nilIdx
    · simp only [h, if_true]
      exact sameIntv_refl t
    · simp only [h, if_false]
      exact sameIntv_trans (sameIntv_update_max_1 t x) (ih _ _)

theorem sameIntv_update_max (t : Tree) (x : Nat) :
    SameIntv t (update_max t x) := sameIntv_update_max_go t x _

theorem sameIntv_rb_transplant (t : Tree) (u v : Nat) :
    SameIntv t (rb_transplant t u v) := by
  simp only [rb_transplant]
  exact sameIntv_trans
    (sameIntv_ite (sameIntv_withRoot _ _) (sameIntv_setChild _ _ _ _))
    (sameIntv_setParent _ _ _)

theorem sameIntv_rotate (t : Tree) (x : Nat) (wh : Direction) :
    SameIntv t (rotate t x wh) := by
  simp only [rotate]
  refine sameIntv_trans ?_ (sameIntv_update_max_1 _ _)
  refine sameIntv_trans ?_ (sameIntv_update_max_1 _ _)
  refine sameIntv_trans ?_ (sameIntv_setParent _ _ _)
  refine sameIntv_trans ?_ (sameIntv_setChild _ _ _ _)
  refine sameIntv_trans ?_ (sameIntv_rb_transplant _ _ _)
  exact sameIntv_trans (sameIntv_setChild _ _ _ _)
    (sameIntv_ite (sameIntv_setParent _ _ _) (sameIntv_refl _))

theorem sameIntv_rb_insert_fixup_case1 (t : Tree) (z y : Nat) :
    SameIntv t (rb_insert_fixup_case1 t z y).1 := by
  simp only [rb_insert_fixup_case1]
  refine sameIntv_trans ?_ (sameIntv_setColor _ _ _)
  refine sameIntv_trans ?_ (sameIntv_setColor _ _ _)
  exact sameIntv_setColor _ _ _

theorem sameIntv_rb_insert_fixup_case23 (t : Tree) (z : Nat)
    (which : Direction) : SameIntv t (rb_insert_fixup_case23 t z which).1 := by
  simp only [rb_insert_fixup_case23]
  refine sameIntv_trans ?_ (sameIntv_rotate _ _ _)
  refine sameIntv_trans ?_ (sameIntv_setColor _ _ _)
  refine sameIntv_trans ?_ (sameIntv_setColor _ _ _)
  split
  · dsimp only
    exact sameIntv_rotate _ _ _
  · exact sameIntv_refl t

theorem sameIntv_rb_insert_fixup_go (t : Tree) (z fuel : Nat) :
    SameIntv t (rb_insert_fixup_go t z fuel) := by
  induction fuel generalizing t z with
  | zero => exact sameIntv_refl t
  | succ n ih =>
    simp only [rb_insert_fixup_go]
    split
    · refine sameIntv_trans ?_ (ih _ _)
      split
      · exact sameIntv_rb_insert_fixup_case1 _ _ _
      · exact sameIntv_rb_insert_fixup_case23 _ _ _
    · exact sameIntv_refl t

theorem sameIntv_rb_insert_fixup (t : Tree) (z : Nat) :
    SameIntv t (rb_insert_fixup t z) := by
  simp only [rb_insert_fixup]
  exact sameIntv_trans (sameIntv_rb_insert_fixup_go _ _ _)
    (sameIntv_setColor _ _ _)

theorem sameIntv_rb_insert_descent (t : Tree) (z y x : Nat)
    (which : Direction) (fuel : Nat) :
    SameIntv t (rb_insert_descent t z y x which fuel).1 := by
  induction fuel generalizing t y x which with
  | zero => exact sameIntv_refl t
  | succ n ih =>
    simp only [rb_insert_descent]
    split
    · refine sameIntv_trans ?_ (ih _ _ _ _)
      exact sameIntv_ite (sameIntv_setMax _ _ _) (sameIntv_refl _)
    · exact sameIntv_refl t

theorem sameIntv_rb_insert_link (t : Tree) (z : Nat) :
    SameIntv t (rb_insert_link t z) := by
  simp only [rb_insert_link]
  refine sameIntv_trans ?_ (sameIntv_setColor _ _ _)
  refine sameIntv_trans ?_ (sameIntv_setChild _ _ _ _)
  refine sameIntv_trans ?_ (sameIntv_setChild _ _ _ _)
  refine sameIntv_trans ?_ (sameIntv_ite (sameIntv_withRoot _ _)
    (sameIntv_trans (sameIntv_setChild _ _ _ _) (sameIntv_update_max_1 _ _)))
  refine sameIntv_trans ?_ (sameIntv_setParent _ _ _)
  exact sameIntv_rb_insert_descent _ _ _ _ _ _

theorem sameIntv_rb_insert (t : Tree) (z : Nat) :
    SameIntv t (rb_insert t z) := by
  simp only [rb_insert]
  exact sameIntv_trans (sameIntv_rb_insert_link _ _)
    (sameIntv_rb_insert_fixup _ _)

theorem sameIntv_rb_delete_fixup_case1 (t : Tree) (x : Nat)
    (which : Direction) (w : Nat) :
    SameIntv t (rb_delete_fixup_case1 t x which w).1 := by
  simp only [rb_delete_fixup_case1]
  refine sameIntv_trans ?_ (sameIntv_rotate _ _ _)
  refine sameIntv_trans ?_ (sameIntv_setColor _ _ _)
  exact sameIntv_setColor _ _ _

theorem sameIntv_rb_delete_fixup_case3 (t : Tree) (x : Nat)
    (which : Direction) (w : Nat) :
    SameIntv t (rb_delete_fixup_case3 t x which w).1 := by
  simp only [rb_delete_fixup_case3]
  refine sameIntv_trans ?_ (sameIntv_rotate _ _ _)
  refine sameIntv_trans ?_ (sameIntv_setColor _ _ _)
  exact sameIntv_setColor _ _ _

theorem sameIntv_rb_delete_fixup_case4 (t : Tree) (x : Nat)
    (which : Direction) (w : Nat) :
    SameIntv t (rb_delete_fixup_case4 t x which w) := by
  simp only [rb_delete_fixup_case4]
  refine sameIntv_trans ?_ (sameIntv_rotate _ _ _)
  refine sameIntv_trans ?_ (sameIntv_setColor _ _ _)
  refine sameIntv_trans ?_ (sameIntv_setColor _ _ _)
  exact sameIntv_setColor _ _ _

theorem sameIntv_rb_delete_fixup_step (t : Tree) (x : Nat) :
    SameIntv t (rb_delete_fixup_step t x).1 := by
  simp only [rb_delete_fixup_step]
  have htw : SameIntv t
      (if colorOf t (sibling t x (opposite (which_child t x))) = Color.red
       then rb_delete_fixup_case1 t x (which_child t x)
         (sibling t x (opposite (which_child t x)))
       else (t, sibling t x (opposite (which_child t x)))).1 := by
    split
    · exact sameIntv_rb_delete_fixup_case1 _ _ _ _
    · exact sameIntv_refl _
  generalize hg :
      (if colorOf t (sibling t x (opposite (which_child t x))) = Color.red
       then rb_delete_fixup_case1 t x (which_child t x)
         (sibling t x (opposite (which_child t x)))
       else (t, sibling t x (opposite (which_child t x)))) = p at htw ⊢
  obtain ⟨t1, w1⟩ := p
  dsimp only at htw ⊢
  split
  · exact sameIntv_trans htw (sameIntv_setColor _ _ _)
  · have htw2 : SameIntv t1
        (if colorOf t1 (child t1 w1 (opposite (which_child t x))) = Color.black
         then rb_delete_fixup_case3 t1 x (which_child t x) w1
         else (t1, w1)).1 := by
      split
      · exact sameIntv_rb_delete_fixup_case3 _ _ _ _
      · exact sameIntv_refl _
    generalize hg2 :
        (if colorOf t1 (child t1 w1 (opposite (which_child t x))) = Color.black
         then rb_delete_fixup_case3 t1 x (which_child t x) w1
         else (t1, w1)) = q at htw2 ⊢
    obtain ⟨t2, w2⟩ := q
    dsimp only at htw2 ⊢
    exact sameIntv_trans htw (sameIntv_trans htw2
      (sameIntv_rb_delete_fixup_case4 _ _ _ _))

theorem sameIntv_rb_delete_fixup_go (t : Tree) (x fuel : Nat) :
    SameIntv t (rb_delete_fixup_go t x fuel).1 := by
  induction fuel generalizing t x with
  | zero => exact sameIntv_refl t
  | succ n ih =>
    simp only [rb_delete_fixup_go]
    split
    · exact sameIntv_trans (sameIntv_rb_delete_fixup_step t x) (ih _ _)
    · exact sameIntv_refl t



theorem sameIntv_rb_delete_splice (t : Tree) (z y x : Nat) :
    SameIntv t (rb_delete_splice t z y x).1 := by
  simp only [rb_delete_splice]
  split
  · dsimp only
    exact sameIntv_setParent _ _ _
  · dsimp only
    refine sameIntv_trans ?_ (sameIntv_setParent _ _ _)
    exact sameIntv_trans (sameIntv_rb_transplant _ _ _)
      (sameIntv_setChild _ _ _ _)

theorem sameIntv_rb_delete_fixup (t : Tree) (x : Nat) :
    SameIntv t (rb_delete_fixup t x) := by
  simp only [rb_delete_fixup]
  exact sameIntv_trans (sameIntv_rb_delete_fixup_go _ _ _)
    (sameIntv_setColor _ _ _)

theorem sameIntv_rb_delete (t : Tree) (z : Nat) :
    SameIntv t (rb_delete t z) := by
  simp only [rb_delete]
  split
  · split
    · refine sameIntv_trans ?_ (sameIntv_rb_delete_fixup _ _)
      refine sameIntv_trans ?_ (sameIntv_update_max _ _)
      exact sameIntv_trans (sameIntv_rb_transplant _ _ _)
        (sameIntv_setChild _ _ _ _)
    · refine sameIntv_trans ?_ (sameIntv_update_max _ _)
      exact sameIntv_trans (sameIntv_rb_transplant _ _ _)
        (sameIntv_setChild _ _ _ _)
  · split
    · split
      · refine sameIntv_trans ?_ (sameIntv_rb_delete_fixup _ _)
        refine sameIntv_trans ?_ (sameIntv_update_max _ _)
        exact sameIntv_trans (sameIntv_rb_transplant _ _ _)
          (sameIntv_setChild _ _ _ _)
      · refine sameIntv_trans ?_ (sameIntv_update_max _ _)
        exact sameIntv_trans (sameIntv_rb_transplant _ _ _)
          (sameIntv_setChild _ _ _ _)
    · have hspl : SameIntv t
          (rb_delete_splice t z (tree_minimum t (getN t z).right)
            (getN t (tree_minimum t (getN t z).right)).right).1 :=
        sameIntv_rb_delete_splice _ _ _ _
      generalize hg : rb_delete_splice t z (tree_minimum t (getN t z).right)
          (getN t (tree_minimum t (getN t z).right)).right = p at hspl ⊢
      obtain ⟨t1, m1⟩ := p
      dsimp only at hspl ⊢
      split
      · refine sameIntv_trans hspl ?_
        refine sameIntv_trans ?_ (sameIntv_rb_delete_fixup _ _)
        refine sameIntv_trans ?_ (sameIntv_update_max _ _)
        refine sameIntv_trans ?_ (sameIntv_setChild _ _ _ _)
        refine sameIntv_trans ?_ (sameIntv_setChild _ _ _ _)
        refine sameIntv_trans ?_ (sameIntv_setColor _ _ _)
        refine sameIntv_trans ?_ (sameIntv_setParent _ _ _)
        refine sameIntv_trans ?_ (sameIntv_setChild _ _ _ _)
        exact sameIntv_rb_transplant _ _ _
      · refine sameIntv_trans hspl ?_
        refine sameIntv_trans ?_ (sameIntv_update_max _ _)
        refine sameIntv_trans ?_ (sameIntv_setChild _ _ _ _)
        refine sameIntv_trans ?_ (sameIntv_setChild _ _ _ _)
        refine sameIntv_trans ?_ (sameIntv_setColor _ _ _)
        refine sameIntv_trans ?_ (sameIntv_setParent _ _ _)
        refine sameIntv_trans ?_ (sameIntv_setChild _ _ _ _)
        exact sameIntv_rb_transplant _ _ _

/-- Other slots are unchanged when a slot is freed. -/
theorem getN_setNone_ne {u : Tree} {k i : Nat} (h : i ≠ k) :
    getN { u with nodes := u.nodes.set k none } i = getN u i := by
  unfold getN
  simp [List.getD_eq_getElem?_getD, List.getElem?_set_ne (Ne.symm h)]

/-- Other live slots stay live when a slot is freed. -/
theorem isLive_setNone_ne {u : Tree} {k i : Nat} (h : i ≠ k)
    (hl : IsLive u i) : IsLive { u with nodes := u.nodes.set k none } i := by
  unfold IsLive at hl ⊢
  simpa [List.getD_eq_getElem?_getD, List.getElem?_set_ne (Ne.symm h)]
    using hl

/-- Erasing a handle frees exactly that arena slot. -/
theorem not_isLive_erase (t : Tree) (k : Nat) : ¬ IsLive (erase t k) k := by
  simp only [erase, IsLive]
  by_cases hk : k < (rb_delete t k).nodes.length
  · simp [List.getD_eq_getElem?_getD, List.getElem?_set_self, hk]
  · rw [List.set_eq_of_length_le (by omega)]
    rw [List.getD_eq_getElem?_getD, List.getElem?_eq_none (by omega)]
    simp

/-- Frame property of `erase`: every slot other than the erased one keeps
its stored interval and its liveness. -/
theorem erase_frame {t : Tree} {k i : Nat} (hne : i ≠ k) :
    (getN (erase t k) i).intv = (getN t i).intv ∧
    (IsLive t i → IsLive (erase t k) i) := by
  simp only [erase]
  constructor
  · rw [getN_setNone_ne hne]
    exact ((sameIntv_rb_delete t k).2 i).1
  · intro hx
    exact isLive_setNone_ne hne (((sameIntv_rb_delete t k).2 i).2 hx)

/-- Frame property of `emplace`: every pre-existing slot keeps its stored
interval and its liveness. -/
theorem emplace_frame {t : Tree} (lo hi : Int) {i : Nat}
    (h : i < t.nodes.length) :
    (getN (emplace t lo hi).1 i).intv = (getN t i).intv ∧
    (IsLive t i → IsLive (emplace t lo hi).1 i) := by
  simp only [emplace]
  have hg : getN { t with nodes := t.nodes ++ [some
      { color := Color.black, intv := some (lo, hi), left := 0, right := 0,
        parent := 0, max := hi }] } i = getN t i := by
    unfold getN
    simp [List.getD_eq_getElem?_getD, List.getElem?_append, h]
  constructor
  · exact ((sameIntv_rb_insert _ _).2 i).1.trans (congrArg Node.intv hg)
  · intro hx
    refine ((sameIntv_rb_insert _ _).2 i).2 ?_
    unfold IsLive at hx ⊢
    simpa [List.getD_eq_getElem?_getD, List.getElem?_append, h] using hx

/-- The handle returned by `emplace` is the fresh arena slot; it is live
and stores the given interval. -/
theorem emplace_new (t : Tree) (lo hi : Int) :
    (emplace t lo hi).2 = t.nodes.length ∧
    (getN (emplace t lo hi).1 t.nodes.length).intv = some (lo, hi) ∧
    IsLive (emplace t lo hi).1 t.nodes.length := by
  refine ⟨rfl, ?_, ?_⟩
  · simp only [emplace]
    refine ((sameIntv_rb_insert _ _).2 t.nodes.length).1.trans ?_
    unfold getN
    simp [List.getD_eq_getElem?_getD,
      List.getElem?_append_right (Nat.le_refl _)]
  · simp only [emplace]
    refine ((sameIntv_rb_insert _ _).2 t.nodes.length).2 ?_
    unfold IsLive
    simp [List.getD_eq_getElem?_getD,
      List.getElem?_append_right (Nat.le_refl _)]

/-- A live handle not erased by a sequence of operations survives them
with its stored interval intact. -/
theorem applyOps_handle_stable {ops : List Op} {t : Tree} {h : Nat}
    {lo hi : Int} (hlive : IsLive t h)
    (hintv : (getN t h).intv = some (lo, hi))
    (hnot : Op.eraseOp h ∉ ops) :
    IsLive (applyOps t ops) h ∧
    (getN (applyOps t ops) h).intv = some (lo, hi) := by
  induction ops generalizing t with
  | nil => exact ⟨hlive, hintv⟩
  | cons op rest ih =>
    have hnot1 : op ≠ Op.eraseOp h := fun e => hnot (e ▸ List.mem_cons_self _ _)
    have hnotr : Op.eraseOp h ∉ rest := fun m => hnot (List.mem_cons_of_mem _ m)
    simp only [applyOps, List.foldl_cons] at *
    cases op with
    | emplaceOp lo2 hi2 =>
      have hfr := emplace_frame lo2 hi2 (isLive_lt_length hlive)
      exact ih (hfr.2 hlive) (hfr.1.trans hintv) hnotr
    | eraseOp k =>
      have hk : h ≠ k := fun e => hnot1 (by rw [e])
      have hfr := erase_frame (t := t) hk
      exact ih (hfr.2 hlive) (hfr.1.trans hintv) hnotr

/-- Concrete tree used by witnesses: `emplace (0, 1)` then `emplace (5, 9)`
on a fresh tree, yielding handles 1 and 2. -/
def treeTwo : Tree :=
  (emplace (emplace emptyTree 0 1).1 5 9).1

/-- C3: for every tree and every valid handle `h` obtained from `emplace`,
`erase h` invalidates exactly `h` (the slot is freed, every other live
slot keeps its interval and liveness), and a handle that no later
operation erases still dereferences to its original interval after any
interleaving of further `emplace`/`erase` operations. -/
theorem erase_only_invalidates_target (t : Tree) (ops : List Op)
    (h i : Nat) (lo hi : Int) (hlive : IsLive t h)
    (hintv : (getN t h).intv = some (lo, hi))
    (hnot : Op.eraseOp h ∉ ops) (hne : i ≠ h) (hilive : IsLive t i) :
    (¬ IsLive (erase t h) h) ∧
    (getN (erase t h) i).intv = (getN t i).intv ∧
    IsLive (erase t h) i ∧
    IsLive (applyOps t ops) h ∧
    (getN (applyOps t ops) h).intv = some (lo, hi) :=
  ⟨not_isLive_erase t h, (erase_frame hne).1, (erase_frame hne).2 hilive,
   (applyOps_handle_stable hlive hintv hnot).1,
   (applyOps_handle_stable hlive hintv hnot).2⟩

/-- Witness for C3 at a concrete tree, handle and operation sequence. -/
theorem erase_only_invalidates_target_witness :
    (¬ IsLive (erase treeTwo 1) 1) ∧
    (getN (erase treeTwo 1) 2).intv = (getN treeTwo 2).intv ∧
    IsLive (erase treeTwo 1) 2 ∧
    IsLive (applyOps treeTwo [Op.emplaceOp 3 7, Op.eraseOp 2]) 1 ∧
    (getN (applyOps treeTwo [Op.emplaceOp 3 7, Op.eraseOp 2]) 1).intv
      = some (0, 1) :=
  erase_only_invalidates_target treeTwo [Op.emplaceOp 3 7, Op.eraseOp 2]
    1 2 0 1 (by decide) (by decide) (by decide) (by decide) (by decide)

/-- C9: on a freshly created tree, after inserting exactly the intervals
`[-16119041,-1]`, `[-1,184549375]`, `[0,0]` in that order (handles 1, 2,
3), iterating `find (0, 0)` yields exactly `[-1,184549375]` (node 2), then
`[0,0]` (node 3), and then the end sentinel. -/
theorem find_after_seed_inserts :
    findIntervals ((emplace ((emplace ((emplace emptyTree
        (-16119041) (-1)).1) (-1) 184549375).1) 0 0).1) 0 0
      = [(-1, 184549375), (0, 0)] ∧
    findList ((emplace ((emplace ((emplace emptyTree
        (-16119041) (-1)).1) (-1) 184549375).1) 0 0).1) 0 0 = [2, 3] ∧
    findNext ((emplace ((emplace ((emplace emptyTree
        (-16119041) (-1)).1) (-1) 184549375).1) 0 0).1) 3 0 0 = nilIdx := by
  decide

/-! ## Field-level frame lemmas and length preservation -/

/-- Setting `m_max` leaves the stored interval and both child links of
every node unchanged. -/
theorem getN_setMax_fields (t : Tree) (x : Nat) (m : Int) (i : Nat) :
    (getN (setMax t x m) i).intv = (getN t i).intv ∧
    (getN (setMax t x m) i).left = (getN t i).left ∧
    (getN (setMax t x m) i).right = (getN t i).right := by
  by_cases hij : i = x
  · subst hij
    by_cases hlt : i < t.nodes.length
    · unfold setMax
      rw [getN_setN_self _ hlt]
      exact ⟨rfl, rfl, rfl⟩
    · unfold setMax
      rw [setN_out _ (by omega)]
      exact ⟨rfl, rfl, rfl⟩
  · unfold setMax
    rw [getN_setN_ne _ hij]
    exact ⟨rfl, rfl, rfl⟩

/-- Setting a child link leaves the parent link of every node unchanged. -/
theorem parent_setChild (t : Tree) (a : Nat) (d : Direction) (v i : Nat) :
    parent (setChild t a d v) i = parent t i := by
  unfold parent
  by_cases hij : i = a
  · subst hij
    by_cases hlt : i < t.nodes.length
    · unfold setChild
      rw [getN_setN_self _ hlt]
      cases d <;> rfl
    · unfold setChild
      rw [setN_out _ (by omega)]
  · unfold setChild
    rw [getN_setN_ne _ hij]

/-- Setting a colour leaves the parent link of every node unchanged. -/
theorem parent_setColor (t : Tree) (a : Nat) (c : Color) (i : Nat) :
    parent (setColor t a c) i = parent t i := by
  unfold parent
  by_cases hij : i = a
  · subst hij
    by_cases hlt : i < t.nodes.length
    · unfold setColor
      rw [getN_setN_self _ hlt]
    · unfold setColor
      rw [setN_out _ (by omega)]
  · unfold setColor
    rw [getN_setN_ne _ hij]

/-- Writing a parent link in range. -/
theorem parent_setParent_self (t : Tree) (a p : Nat)
    (h : a < t.nodes.length) : parent (setParent t a p) a = p := by
  unfold parent setParent
  rw [getN_setN_self _ h]

/-- Writing a parent link leaves other nodes' parent links unchanged. -/
theorem parent_setParent_ne (t : Tree) (a p i : Nat) (h : i ≠ a) :
    parent (setParent t a p) i = parent t i := by
  unfold parent setParent
  rw [getN_setN_ne _ h]

/-- Replacing the root reference changes no node record. -/
theorem parent_withRoot (t : Tree) (v i : Nat) :
    parent { t with root := v } i = parent t i := rfl

theorem length_setChild (t : Tree) (x : Nat) (d : Direction) (v : Nat) :
    (setChild t x d v).nodes.length = t.nodes.length :=
  (sameIntv_setChild t x d v).1

theorem length_setParent (t : Tree) (x p : Nat) :
    (setParent t x p).nodes.length = t.nodes.length :=
  (sameIntv_setParent t x p).1

theorem length_setColor (t : Tree) (x : Nat) (c : Color) :
    (setColor t x c).nodes.length = t.nodes.length :=
  (sameIntv_setColor t x c).1

theorem length_setMax (t : Tree) (x : Nat) (m : Int) :
    (setMax t x m).nodes.length = t.nodes.length :=
  (sameIntv_setMax t x m).1

theorem length_update_max_1 (t : Tree) (x : Nat) :
    (update_max_1 t x).nodes.length = t.nodes.length :=
  (sameIntv_update_max_1 t x).1

theorem length_rb_transplant (t : Tree) (u v : Nat) :
    (rb_transplant t u v).nodes.length = t.nodes.length :=
  (sameIntv_rb_transplant t u v).1

theorem length_rb_insert_descent (t : Tree) (z y x : Nat)
    (which : Direction) (fuel : Nat) :
    (rb_insert_descent t z y x which fuel).1.nodes.length
      = t.nodes.length :=
  (sameIntv_rb_insert_descent t z y x which fuel).1

theorem length_tree_ite (c : Prop) [Decidable c] (a b : Tree) :
    (if c then a else b).nodes.length
      = if c then a.nodes.length else b.nodes.length := by
  split <;> rfl

/-! ## Claim C6: insertion descent branching rule and red colouring -/

/-- Nodes visited by the BST insertion descent for a key `zk` starting at
node `x`, paired with the direction taken out of each node: left exactly
when `zk` is strictly below the node's key, right otherwise.  This reads
the branching rule of the `rb_insert` descent loop off the initial
state. -/
def descentPath (t : Tree) (zk : Int × Int) (x : Nat) :
    Nat → List (Nat × Direction)
  | 0 => []
  | fuel + 1 =>
    if x ≠ nilIdx then
      let d := if keyLt zk (key t x) then Direction.left else Direction.right
      (x, d) :: descentPath t zk (child t x d) fuel
    else []

/-- Every step of `descentPath` branches left exactly on strictly smaller
keys. -/
theorem descentPath_rule (t : Tree) (zk : Int × Int) (x fuel : Nat) :
    ∀ p ∈ descentPath t zk x fuel,
      (p.2 = Direction.left ↔ keyLt zk (key t p.1) = true) := by
  induction fuel generalizing x with
  | zero =>
    intro p hp
    simp [descentPath] at hp
  | succ n ih =>
    intro p hp
    simp only [descentPath] at hp
    by_cases hx : x ≠ nilIdx
    · rw [if_pos hx] at hp
      rcases List.mem_cons.mp hp with h | h
      · subst h
        dsimp only
        by_cases hk : keyLt zk (key t x) = true
        · simp [hk]
        · simp [hk]
      · exact ih _ p h
    · rw [if_neg hx] at hp
      cases hp

/-- Keys agree on states that store the same intervals. -/
theorem key_congr {t u : Tree}
    (h : ∀ i, (getN u i).intv = (getN t i).intv) (j : Nat) :
    key u j = key t j := by
  unfold key low high
  rw [h j]

/-- The insertion descent of the source follows `descentPath`: the `m_max`
raises performed on the way down touch neither keys nor child links, so
the visited nodes, the branching decisions and the final insertion point
are all read off the initial state. -/
theorem rb_insert_descent_follows (t : Tree) (z : Nat) (fuel : Nat) :
    ∀ (u : Tree) (y x : Nat) (which : Direction),
    (∀ i, (getN u i).intv = (getN t i).intv) →
    (∀ i, (getN u i).left = (getN t i).left
      ∧ (getN u i).right = (getN t i).right) →
    (rb_insert_descent u z y x which fuel).2 =
      (descentPath t (key t z) x fuel).getLastD (y, which) := by
  induction fuel with
  | zero =>
    intro u y x which hz hlr
    simp [rb_insert_descent, descentPath]
  | succ n ih =>
    intro u y x which hz hlr
    simp only [rb_insert_descent, descentPath]
    by_cases hx : x ≠ nilIdx
    · rw [if_pos hx, if_pos hx]
      have hkz := key_congr hz z
      have hkx := key_congr hz x
      rw [hkz, hkx, List.getLastD_cons]
      have hchild : ∀ d, child u x d = child t x d := by
        intro d
        unfold child Node.child
        cases d
        · rw [(hlr x).1]
        · rw [(hlr x).2]
      by_cases hk : keyLt (key t z) (key t x) = true
      · rw [if_pos hk]
        rw [hchild Direction.left]
        split
        · exact ih _ _ _ _
            (fun i => ((getN_setMax_fields u x (high u z) i).1).trans (hz i))
            (fun i => ⟨((getN_setMax_fields u x (high u z) i).2.1).trans
                ((hlr i).1),
              ((getN_setMax_fields u x (high u z) i).2.2).trans
                ((hlr i).2)⟩)
        · exact ih _ _ _ _ hz hlr
      · rw [if_neg hk]
        rw [hchild Direction.right]
        split
        · exact ih _ _ _ _
            (fun i => ((getN_setMax_fields u x (high u z) i).1).trans (hz i))
            (fun i => ⟨((getN_setMax_fields u x (high u z) i).2.1).trans
                ((hlr i).1),
              ((getN_setMax_fields u x (high u z) i).2.2).trans
                ((hlr i).2)⟩)
        · exact ih _ _ _ _ hz hlr
    · rw [if_neg hx, if_neg hx]
      simp [rb_insert_descent]

/-- Writing a colour in range is observable. -/
theorem colorOf_setColor_self {u : Tree} (z : Nat) (c : Color)
    (h : z < u.nodes.length) : colorOf (setColor u z c) z = c := by
  unfold colorOf setColor
  rw [getN_setN_self _ h]

/-- The linking phase of `rb_insert` leaves the new node red. -/
theorem rb_insert_link_color (t : Tree) (z : Nat)
    (hz : z < t.nodes.length) :
    colorOf (rb_insert_link t z) z = Color.red := by
  simp only [rb_insert_link]
  refine colorOf_setColor_self z Color.red ?_
  simp only [length_setChild, length_tree_ite, length_update_max_1,
    length_setParent, length_rb_insert_descent, ite_self]
  exact hz

/-- C6: for every insertion, the new node is placed by a BST descent keyed
by the lexicographic `(low, high)` pair — at each visited node the descent
branches left exactly when the new key is strictly less than the node's
key and right otherwise — and the new node is coloured red before the
fixup runs. -/
theorem insert_descent_branching_and_red (t : Tree) (z : Nat)
    (hz : z < t.nodes.length) :
    ((descentPath t (key t z) t.root (t.nodes.length + 1)).all
      (fun p => (p.2 == Direction.left)
        == keyLt (key t z) (key t p.1)) = true) ∧
    (rb_insert_descent t z nilIdx t.root Direction.left
        (t.nodes.length + 1)).2 =
      (descentPath t (key t z) t.root (t.nodes.length + 1)).getLastD
        (nilIdx, Direction.left) ∧
    colorOf (rb_insert_link t z) z = Color.red ∧
    rb_insert t z = rb_insert_fixup (rb_insert_link t z) z := by
  refine ⟨?_, ?_, rb_insert_link_color t z hz, rfl⟩
  · rw [List.all_eq_true]
    intro p hp
    have hrule := descentPath_rule t (key t z) t.root (t.nodes.length + 1) p hp
    rcases hd : p.2 with _ | _ <;>
      rcases hk : keyLt (key t z) (key t p.1) with _ | _ <;>
      simp_all
  · exact rb_insert_descent_follows t z (t.nodes.length + 1) t nilIdx t.root
      Direction.left (fun _ => rfl) (fun _ => ⟨rfl, rfl⟩)

/-- Witness for C6 on a concrete tree and fresh node index. -/
theorem insert_descent_branching_and_red_witness :
    ((descentPath treeTwo (key treeTwo 1) treeTwo.root
        (treeTwo.nodes.length + 1)).all
      (fun p => (p.2 == Direction.left)
        == keyLt (key treeTwo 1) (key treeTwo p.1)) = true) ∧
    (rb_insert_descent treeTwo 1 nilIdx treeTwo.root Direction.left
        (treeTwo.nodes.length + 1)).2 =
      (descentPath treeTwo (key treeTwo 1) treeTwo.root
        (treeTwo.nodes.length + 1)).getLastD (nilIdx, Direction.left) ∧
    colorOf (rb_insert_link treeTwo 1) 1 = Color.red ∧
    rb_insert treeTwo 1 = rb_insert_fixup (rb_insert_link treeTwo 1) 1 :=
  insert_descent_branching_and_red treeTwo 1 (by decide)

/-! ## Claim C4: where the deletion restarts the m_max walk-up -/

/-- Structural phase of `rb_delete`, factored to expose the node at which
the `m_max` walk-up starts.  Returns the state after the structural
change, the walk-up start node (the exact argument `rb_delete` passes to
`update_max`), the fixup start node `x`, and the spliced-out colour. -/
def rb_delete_parts (t : Tree) (z : Nat) : Tree × Nat × Nat × Color :=
  if (getN t z).left = nilIdx then
    let c := colorOf t z
    let x := (getN t z).right
    let t1 := rb_transplant t z (getN t z).right
    let t2 := setChild t1 z Direction.right nilIdx
    (t2, parent t2 z, x, c)
  else if (getN t z).right = nilIdx then
    let c := colorOf t z
    let x := (getN t z).left
    let t1 := rb_transplant t z (getN t z).left
    let t2 := setChild t1 z Direction.left nilIdx
    (t2, parent t2 z, x, c)
  else
    let y := tree_minimum t (getN t z).right
    let c := colorOf t y
    let x := (getN t y).right
    let tm := rb_delete_splice t z y x
    let t1 := tm.1
    let m := tm.2
    let t2 := rb_transplant t1 z y
    let t3 := setChild t2 y Direction.left (getN t2 z).left
    let t4 := setParent t3 (getN t3 y).left y
    let t5 := setColor t4 y (colorOf t4 z)
    let t6 := setChild t5 z Direction.left nilIdx
    let t7 := setChild t6 z Direction.right nilIdx
    (t7, m, x, c)

/-- Factorization of `rb_delete`: structural phase, then the `m_max`
walk-up from the returned start node, then the conditional fixup. -/
theorem rb_delete_eq_parts (t : Tree) (z : Nat) :
    rb_delete t z =
      (let p := rb_delete_parts t z
       let t1 := update_max p.1 p.2.1
       if p.2.2.2 = Color.black then rb_delete_fixup t1 p.2.2.1 else t1) := by
  by_cases h1 : (getN t z).left = nilIdx
  · simp only [rb_delete, rb_delete_parts, if_pos h1]
  · by_cases h2 : (getN t z).right = nilIdx
    · simp only [rb_delete, rb_delete_parts, if_neg h1, if_pos h2]
    · simp only [rb_delete, rb_delete_parts, if_neg h1, if_neg h2]

/-- Lowest touched position of a deletion as the claim describes it: the
parent of the transplanted child when the deleted node had fewer than two
children; otherwise the in-order successor's original parent, or the
successor itself when the successor is the deleted node's direct right
child.  Claim-side definition, to be compared with the start node the
source actually uses. -/
def claim_walk_start (t : Tree) (z : Nat) : Nat :=
  if (getN t z).left = nilIdx then
    parent (rb_delete_parts t z).1 ((getN t z).right)
  else if (getN t z).right = nilIdx then
    parent (rb_delete_parts t z).1 ((getN t z).left)
  else if tree_minimum t (getN t z).right = (getN t z).right then
    tree_minimum t (getN t z).right
  else parent t (tree_minimum t (getN t z).right)

/-- Concrete witness tree with three nodes: root 1 = [0,1] with left child
3 = [-5,-1] and right child 2 = [5,9]. -/
def treeThree : Tree :=
  (emplace (emplace (emplace emptyTree 0 1).1 5 9).1 (-5) (-1)).1

/-- C4: in every deletion, after the structural change the implementation
recomputes `m_max` walking upward to the root starting exactly at the
lowest touched position: the parent of the transplanted child when the
deleted node had fewer than two children, otherwise the in-order
successor's original parent, or the successor itself when the successor
was the deleted node's direct right child. -/
theorem rb_delete_update_max_walk_start (t : Tree) (z : Nat)
    (hl : (getN t z).left ≠ z) (hr : (getN t z).right ≠ z)
    (hcl : (getN t z).left < t.nodes.length)
    (hcr : (getN t z).right < t.nodes.length)
    (hbridge : (getN t z).left ≠ nilIdx → (getN t z).right ≠ nilIdx →
      (parent t (tree_minimum t (getN t z).right) = z ↔
        tree_minimum t (getN t z).right = (getN t z).right)) :
    rb_delete t z =
      (let p := rb_delete_parts t z
       let t1 := update_max p.1 p.2.1
       if p.2.2.2 = Color.black then rb_delete_fixup t1 p.2.2.1 else t1) ∧
    (rb_delete_parts t z).2.1 = claim_walk_start t z := by
  refine ⟨rb_delete_eq_parts t z, ?_⟩
  by_cases h1 : (getN t z).left = nilIdx
  · simp only [rb_delete_parts, claim_walk_start, if_pos h1]
    rw [parent_setChild, parent_setChild]
    simp only [rb_transplant]
    rw [parent_setParent_ne _ _ _ _ (Ne.symm hr)]
    rw [parent_setParent_self _ _ _
      (by simp only [length_tree_ite, length_setChild, ite_self]; exact hcr)]
  · by_cases h2 : (getN t z).right = nilIdx
    · simp only [rb_delete_parts, claim_walk_start, if_neg h1, if_pos h2]
      rw [parent_setChild, parent_setChild]
      simp only [rb_transplant]
      rw [parent_setParent_ne _ _ _ _ (Ne.symm hl)]
      rw [parent_setParent_self _ _ _
        (by simp only [length_tree_ite, length_setChild, ite_self]; exact hcl)]
    · simp only [rb_delete_parts, claim_walk_start, if_neg h1, if_neg h2]
      simp only [rb_delete_splice]
      by_cases hyz : parent t (tree_minimum t (getN t z).right) = z
      · rw [if_pos hyz, if_pos ((hbridge h1 h2).mp hyz)]
      · rw [if_neg hyz, if_neg (fun e => hyz ((hbridge h1 h2).mpr e))]

/-- Witness for C4 at a two-children deletion on a concrete tree. -/
theorem rb_delete_update_max_walk_start_witness :
    (rb_delete treeThree 1 =
      (let p := rb_delete_parts treeThree 1
       let t1 := update_max p.1 p.2.1
       if p.2.2.2 = Color.black then rb_delete_fixup t1 p.2.2.1 else t1) ∧
    (rb_delete_parts treeThree 1).2.1 = claim_walk_start treeThree 1) :=
  rb_delete_update_max_walk_start treeThree 1 (by decide) (by decide)
    (by decide) (by decide) (by decide)

/-! ## Claim C5: the UP stage of the overlap iterator -/

/-- UP-stage climb exactly as the claim words it, including its
"parent is non-root" condition: switch to evaluating the parent only when
the current node was its parent's left child and the parent is not the
root; otherwise keep climbing; a null parent terminates.  Claim-side
definition, used only to exhibit the divergence from the source's climb
(`search_climb`), which also evaluates the root. -/
def search_climb_claim (t : Tree) (x : Nat) : Nat → Nat
  | 0 => nilIdx
  | fuel + 1 =>
    let from_right := is_child t x Direction.right
    let x2 := parent t x
    if x2 = nilIdx then nilIdx
    else if from_right ∨ x2 = t.root then search_climb_claim t x2 fuel
    else x2

/-- Concrete two-node tree: root 1 = [5,10] with left child 2 = [0,6]. -/
def treeLR : Tree :=
  (emplace (emplace emptyTree 5 10).1 0 6).1

/-- C5 counterexample: on the tree with root [5,10] and left child [0,6],
advancing the overlap iterator for the query [6,6] from node 2 enters the
UP stage (the right-subtree check fails); node 2 is its parent's left
child and that parent is the root.  The source evaluates the root and
yields it (it overlaps), whereas the climb as worded in the claim — which
keeps climbing when the parent is the root — runs off the top of the tree
and terminates with the end sentinel. -/
theorem up_stage_nonroot_counterexample :
    is_child treeLR 2 Direction.left = true ∧
    parent treeLR 2 = treeLR.root ∧
    ¬((getN treeLR 2).right ≠ nilIdx ∧
      (6 : Int) ≤ (getN treeLR (getN treeLR 2).right).max) ∧
    interval_search_next treeLR 2 6 6 = 1 ∧
    1 = treeLR.root ∧ (1 : Nat) ≠ nilIdx ∧
    low treeLR 1 ≤ 6 ∧ 6 ≤ high treeLR 1 ∧
    search_climb treeLR 2 (treeLR.nodes.length + 1) = 1 ∧
    search_climb_claim treeLR 2 (treeLR.nodes.length + 1) = nilIdx := by
  decide

/-- C5 (amended): advancing the overlap iterator in the UP stage climbs to
the parent; when the current node was its parent's left child, the parent
is evaluated for overlap (OVERLAP stage) — whether or not that parent is
the root; otherwise the climb continues; and arriving at a null parent
(the sentinel) terminates the iteration with the end sentinel. -/
theorem up_stage_advance (t : Tree) (x : Nat) (lo hi : Int)
    (fuel fuel2 : Nat)
    (hnr : ¬((getN t x).right ≠ nilIdx
      ∧ lo ≤ (getN t (getN t x).right).max)) :
    (search_climb t x (fuel2 + 1) =
      (if parent t x = nilIdx then nilIdx
       else if is_child t x Direction.right then
         search_climb t (parent t x) fuel2
       else parent t x)) ∧
    interval_search_next_go t x lo hi (fuel + 1) =
      (let p := search_climb t x (t.nodes.length + 1)
       if p = nilIdx then nilIdx
       else if hi < low t p then nilIdx
       else if lo ≤ high t p then p
       else interval_search_next_go t p lo hi fuel) := by
  constructor
  · rfl
  · simp only [interval_search_next_go]
    rw [if_neg hnr]

/-- Witness for the amended C5 at the concrete two-node tree. -/
theorem up_stage_advance_witness :
    (search_climb treeLR 2 4 =
      (if parent treeLR 2 = nilIdx then nilIdx
       else if is_child treeLR 2 Direction.right then
         search_climb treeLR (parent treeLR 2) 3
       else parent treeLR 2)) ∧
    interval_search_next_go treeLR 2 6 6 4 =
      (let p := search_climb treeLR 2 (treeLR.nodes.length + 1)
       if p = nilIdx then nilIdx
       else if (6 : Int) < low treeLR p then nilIdx
       else if (6 : Int) ≤ high treeLR p then p
       else interval_search_next_go treeLR p 6 6 3) :=
  up_stage_advance treeLR 2 6 6 3 3 (by decide)

end IntervalTree
